import Mathlib

/-
  Verification development for the task documentation resolution and
  extraction engine of the azure-pipelines-mcp server.

  The TypeScript sources are embedded shallowly: strings are `List Char`,
  the regex-driven scanners are reproduced as executable recursive
  functions following JavaScript regex semantics (leftmost match, greedy /
  lazy quantifier behaviour analysed per pattern), and the effectful
  handlers take their network outcomes as explicit oracle arguments.
-/

set_option maxRecDepth 8192

/-! ## String infrastructure (embedding of the JavaScript string/regex operations) -/

abbrev Str := List Char

/-- JavaScript `\s` restricted to the ASCII whitespace actually used by the corpus. -/
def isWsChar (c : Char) : Bool :=
  c == ' ' || c == '\t' || c == '\n' || c == '\r' || c == '\x0b' || c == '\x0c'

def isDigitChar (c : Char) : Bool := '0' ≤ c && c ≤ '9'

def isUpperAlpha (c : Char) : Bool := 'A' ≤ c && c ≤ 'Z'

def isLowerAlpha (c : Char) : Bool := 'a' ≤ c && c ≤ 'z'

/-- The character class `[A-Za-z0-9_-]` of the identifier regexes. -/
def isNameChar (c : Char) : Bool :=
  isUpperAlpha c || isLowerAlpha c || isDigitChar c || c == '_' || c == '-'

/-- JavaScript `\w` = `[A-Za-z0-9_]`, used for the `\b` boundary test. -/
def isWordChar (c : Char) : Bool :=
  isUpperAlpha c || isLowerAlpha c || isDigitChar c || c == '_'

def toLowerChar (c : Char) : Char :=
  if 'A' ≤ c && c ≤ 'Z' then Char.ofNat (c.toNat + 32) else c

/-- Embedding of `String.prototype.toLowerCase` on the ASCII range. -/
def toLowerStr (s : Str) : Str := s.map toLowerChar

def trimRightStr (s : Str) : Str := (s.reverse.dropWhile isWsChar).reverse

/-- Embedding of `String.prototype.trim`. -/
def trimStr (s : Str) : Str := trimRightStr (s.dropWhile isWsChar)

/-- Boolean prefix test on character lists. -/
def pfx : Str → Str → Bool
  | [], _ => true
  | _ :: _, [] => false
  | a :: as, b :: bs => a == b && pfx as bs

/-- Split at the first occurrence of `pat`: returns the text before the
occurrence and the text after it.  This is the semantics of a JavaScript
regex search for a literal pattern (leftmost occurrence). -/
def splitFirst (pat : Str) : Str → Option (Str × Str)
  | [] => if pat.isEmpty then some ([], []) else none
  | c :: cs =>
    if pfx pat (c :: cs) then some ([], (c :: cs).drop pat.length)
    else
      match splitFirst pat cs with
      | some (a, b) => some (c :: a, b)
      | none => none

/-- Embedding of `String.prototype.includes`. -/
def containsPat (pat s : Str) : Bool := (splitFirst pat s).isSome

/-- Embedding of a regex `/op([\s\S]*?)cl/` for literal `op`, `cl`:
first occurrence of `op`, then the (lazy) body up to the first following `cl`. -/
def extractBetween (op cl : Str) (s : Str) : Option Str :=
  match splitFirst op s with
  | none => none
  | some (_, rest) =>
    match splitFirst cl rest with
    | none => none
    | some (body, _) => some body

/-- Suffix of `r` after its last newline (the whole of `r` if it has none). -/
def afterLastNl (r : Str) : Str :=
  ((r.reverse.takeWhile (fun c => c != '\n'))).reverse

/-- Embedding of `String.prototype.split("\n")`. -/
def splitOnNl : Str → List Str
  | [] => [[]]
  | c :: cs =>
    if c = '\n' then [] :: splitOnNl cs
    else
      match splitOnNl cs with
      | [] => [[c]]
      | l :: ls => (c :: l) :: ls

def joinNl (ls : List Str) : Str := List.intercalate ['\n'] ls

def natToStr (n : Nat) : Str := (Nat.repr n).toList

/-! ### Basic lemmas about the scanners -/

theorem pfx_append_self (p t : Str) : pfx p (p ++ t) = true := by
  induction p with
  | nil => rfl
  | cons c cs ih => simp [pfx, ih]

theorem splitFirst_append (pat a b : Str) (hp : pat ≠ [])
    (h : ∀ n, n < a.length → pfx pat ((a ++ pat ++ b).drop n) = false) :
    splitFirst pat (a ++ pat ++ b) = some (a, b) := by
  induction a with
  | nil =>
    cases hpat : pat with
    | nil => exact absurd hpat hp
    | cons p ps =>
      subst hpat
      simp only [List.nil_append]
      have hpp : pfx (p :: ps) ((p :: ps) ++ b) = true := pfx_append_self _ _
      rw [List.cons_append] at hpp ⊢
      simp only [splitFirst, hpp, if_true]
      rw [← List.cons_append]
      rw [List.drop_left]
  | cons x a' ih =>
    have h0 : pfx pat ((x :: a' ++ pat ++ b).drop 0) = false := by
      exact h 0 (by simp)
    simp only [List.drop_zero] at h0
    rw [List.cons_append, List.cons_append]
    cases hpat : pat with
    | nil => exact absurd hpat hp
    | cons p ps =>
      subst hpat
      simp only [splitFirst]
      rw [List.cons_append, List.cons_append] at h0
      simp only [h0]
      simp only [Bool.false_eq_true, if_false]
      have ih' := ih (fun n hn => by
        have := h (n + 1) (by simpa using Nat.succ_lt_succ hn)
        simpa using this)
      rw [ih']

theorem containsPat_nil (s : Str) : containsPat [] s = true := by
  cases s <;> simp [containsPat, splitFirst, List.isEmpty, pfx]

/-! ## Data model of src/tools/search-tasks.ts -/

inductive TaskCategory
  | build | deploy | package | test | tool | utility
deriving DecidableEq, Repr

/-- The literal value of a `TaskCategory`, as it appears in the TypeScript
string union (used for building the `Map` deduplication key). -/
def catName : TaskCategory → Str
  | .build => "build".toList
  | .deploy => "deploy".toList
  | .package => "package".toList
  | .test => "test".toList
  | .tool => "tool".toList
  | .utility => "utility".toList

structure PipelineTaskInput where
  name : Str
  type : Str
  label : Str
  defaultValue : Option Str
  required : Option Bool
  helpMarkDown : Option Str
  options : Option (List (Str × Str))
deriving DecidableEq, Repr

structure PipelineTask where
  name : Str
  displayName : Str
  version : Str
  fullName : Str
  description : Str
  category : TaskCategory
  documentationPath : Str
  inputs : Option (List PipelineTaskInput) := none
deriving DecidableEq, Repr

/-- Embedding of the `CATEGORY_MAPPING` lookup table. -/
def CATEGORY_MAPPING (s : Str) : Option TaskCategory :=
  if s == "build tasks".toList then some .build
  else if s == "deploy tasks".toList then some .deploy
  else if s == "package tasks".toList then some .package
  else if s == "test tasks".toList then some .test
  else if s == "tool tasks".toList then some .tool
  else if s == "utility tasks".toList then some .utility
  else if s == "build".toList then some .build
  else if s == "deploy".toList then some .deploy
  else if s == "package".toList then some .package
  else if s == "test".toList then some .test
  else if s == "tool".toList then some .tool
  else if s == "utility".toList then some .utility
  else none

/-- Embedding of the category-heading regex `/^##\s+(.+?)\s*$/i` applied to one
line: the capture is the heading text after `##` plus whitespace, with
trailing whitespace shed by the lazy quantifier. -/
def headingCapture (line : Str) : Option Str :=
  if pfx ("##".toList) line then
    let rest := line.drop 2
    match rest with
    | [] => none
    | c :: _ =>
      if isWsChar c then
        let core := rest.dropWhile isWsChar
        if core ≠ [] then some (trimRightStr core)
        else if 2 ≤ (rest.takeWhile isWsChar).length then
          some [(rest.takeWhile isWsChar).getLastD ' ']
        else none
      else none
  else none

/-- Embedding of the table-row regex `/^\|\s*\*\*(.+?)\*\*.*?\|(.+?)\|$/`
applied to one line: returns the raw display-name and description captures. -/
def rowMatch (line : Str) : Option (Str × Str) :=
  match line with
  | '|' :: r0 =>
    let r1 := r0.dropWhile isWsChar
    if pfx ("**".toList) r1 then
      match r1.drop 2 with
      | [] => none
      | c :: t' =>
        match splitFirst ("**".toList) t' with
        | none => none
        | some (a, afterClose) =>
          match splitFirst ['|'] afterClose with
          | none => none
          | some (_, afterBar) =>
            if 2 ≤ afterBar.length ∧ afterBar.getLast? = some '|' then
              some (c :: a, afterBar.dropLast)
            else none
    else none
  | _ => none

/-- One attempt of the task-link regex `/\[([A-Za-z0-9_-]+@\d+)\]\(([^)]+)\)/`
anchored at the head of `s`; on success returns the full-name capture, the
path capture and the remainder of the string after the match. -/
def tryLink : Str → Option (Str × Str × Str)
  | '[' :: rest =>
    let nm := rest.takeWhile isNameChar
    if nm = [] then none
    else
      match rest.drop nm.length with
      | '@' :: r2 =>
        let ds := r2.takeWhile isDigitChar
        if ds = [] then none
        else
          match r2.drop ds.length with
          | ']' :: '(' :: r4 =>
            let p := r4.takeWhile (fun c => c != ')')
            if p = [] then none
            else
              match r4.drop p.length with
              | ')' :: r6 => some (nm ++ '@' :: ds, p, r6)
              | _ => none
          | _ => none
      | _ => none
  | _ => none

/-- Global (`/g`) scan of the task-link regex over a line, fuel-bounded; the
fuel is instantiated with the line length, which each step strictly consumes. -/
def findTaskLinksAux : Nat → Str → List (Str × Str)
  | 0, _ => []
  | _, [] => []
  | fuel + 1, c :: cs =>
    match tryLink (c :: cs) with
    | some (f, p, rest) => (f, p) :: findTaskLinksAux fuel rest
    | none => findTaskLinksAux fuel cs

def findTaskLinks (line : Str) : List (Str × Str) :=
  findTaskLinksAux line.length line

/-- Embedding of the anchored validation regex `^([A-Za-z0-9_-]+)@(\d+)$`:
on success returns the name and version captures. -/
def matchTaskId (s : Str) : Option (Str × Str) :=
  let nm := s.takeWhile isNameChar
  if nm = [] then none
  else
    match s.dropWhile isNameChar with
    | '@' :: ds =>
      if ds ≠ [] ∧ ds.all isDigitChar then some (nm, ds) else none
    | _ => none

/-- The string key `` `${fullName}-${currentCategory}` `` used by the
deduplicating `Map` in `parseTaskIndex`. -/
def taskKey (t : PipelineTask) : Str := t.fullName ++ '-' :: catName t.category

/-- Inserts the candidate stubs of one table row, skipping candidates whose
key is already present (the `Map.has` check). -/
def insertLinks (cat : TaskCategory) (dn desc : Str) :
    List PipelineTask → List (Str × Str) → List PipelineTask
  | acc, [] => acc
  | acc, (full, path) :: rest =>
    match matchTaskId full with
    | none => insertLinks cat dn desc acc rest
    | some (nm, ver) =>
      let key := full ++ '-' :: catName cat
      if acc.any (fun t => taskKey t == key) then insertLinks cat dn desc acc rest
      else
        insertLinks cat dn desc
          (acc ++ [{ name := nm, displayName := dn, version := ver, fullName := full,
                     description := desc, category := cat, documentationPath := path }])
          rest

/-- One line of the `parseTaskIndex` loop: updates the current category and
the accumulated (insertion-ordered, key-deduplicated) stub list. -/
def indexStep (st : Option TaskCategory × List PipelineTask) (line : Str) :
    Option TaskCategory × List PipelineTask :=
  match headingCapture line with
  | some cap => (CATEGORY_MAPPING (toLowerStr cap), st.2)
  | none =>
    match st.1 with
    | none => st
    | some cat =>
      match rowMatch line with
      | none => st
      | some (dn, desc) =>
        (some cat, insertLinks cat (trimStr dn) (trimStr desc) st.2 (findTaskLinks line))

/-- Embedding of `parseTaskIndex`. -/
def parseTaskIndex (md : Str) : List PipelineTask :=
  ((splitOnNl md).foldl indexStep (none, [])).2

/-! ## The Azure DevOps API side of search-tasks.ts -/

/-- One entry of the collaborator "list task definitions" endpoint.
Modelled from the spec (its TypeScript declaration is not under src/, but the
field shape is fixed by the accesses in search-tasks.ts and task-reference.ts):
name, friendly name, description, category, major version, help text and an
input list. -/
structure TaskDefinition where
  name : Str
  friendlyName : Str
  description : Str
  category : Option Str
  versionMajor : Nat
  helpMarkDown : Option Str
  inputs : Option (List PipelineTaskInput)
deriving DecidableEq, Repr

/-- First replace of `pascalToKebabCase`: global `/([a-z0-9])([A-Z])/g`
with `"$1-$2"`; after a replacement the scan resumes after the matched pair. -/
def insertDashLU : Str → Str
  | [] => []
  | [c] => [c]
  | a :: b :: rest =>
    if (isLowerAlpha a || isDigitChar a) && isUpperAlpha b then
      a :: '-' :: b :: insertDashLU rest
    else a :: insertDashLU (b :: rest)

/-- Second replace of `pascalToKebabCase`: global `/([A-Z])([A-Z])(?=[a-z])/g`
with `"$1-$2"`; the lookahead character is not consumed. -/
def insertDashUUL : Str → Str
  | a :: b :: c :: rest =>
    if isUpperAlpha a && isUpperAlpha b && isLowerAlpha c then
      a :: '-' :: b :: insertDashUUL (c :: rest)
    else a :: insertDashUUL (b :: c :: rest)
  | s => s

/-- Embedding of `pascalToKebabCase`. -/
def pascalToKebabCase (s : Str) : Str :=
  toLowerStr (insertDashUUL (insertDashLU s))

/-- URL tail attempt of `/\[.*?\]\((https?:\/\/[^)]+)\)/`: after the `](`,
the capture is the scheme plus the greedy run of non-`)` characters, which
must be non-empty and followed by `)`. -/
def tryUrl (r : Str) : Option Str :=
  let k : Option Nat :=
    if pfx ("https://".toList) r then some 8
    else if pfx ("http://".toList) r then some 7
    else none
  match k with
  | none => none
  | some k =>
    let body := (r.drop k).takeWhile (fun c => c != ')')
    if body = [] then none
    else
      match (r.drop k).drop body.length with
      | ')' :: _ => some (r.take k ++ body)
      | _ => none

/-- Lazy `.*?` search after a `[`: tries each `]` in turn (the dot cannot
cross a newline); on failure of the continuation the dot grows past the `]`. -/
def tryAfterBracket : Str → Option Str
  | [] => none
  | c :: cs =>
    if c = '\n' then none
    else if c = ']' then
      match cs with
      | '(' :: rest =>
        match tryUrl rest with
        | some u => some u
        | none => tryAfterBracket cs
      | _ => tryAfterBracket cs
    else tryAfterBracket cs

def scanDocLink : Str → Option Str
  | [] => none
  | c :: cs =>
    if c = '[' then
      match tryAfterBracket cs with
      | some u => some u
      | none => scanDocLink cs
    else scanDocLink cs

/-- Embedding of `extractDocLink` (note the JavaScript truthiness test:
an empty help text behaves like an absent one). -/
def extractDocLink (helpMarkDown : Option Str) : Option Str :=
  match helpMarkDown with
  | none => none
  | some s => if s = [] then none else scanDocLink s

/-- Embedding of `convertApiTaskToPipelineTask` from search-tasks.ts. -/
def convertApiTaskToPipelineTask (t : TaskDefinition) : PipelineTask :=
  let category :=
    match t.category with
    | none => TaskCategory.utility
    | some c => if c = [] then .utility else (CATEGORY_MAPPING (toLowerStr c)).getD .utility
  let version := natToStr t.versionMajor
  let documentationPath :=
    match extractDocLink t.helpMarkDown with
    | some link => link
    | none =>
      ("https://learn.microsoft.com/en-us/azure/devops/pipelines/tasks/reference/".toList)
        ++ pascalToKebabCase t.name ++ ("-v".toList) ++ version
  { name := t.name, displayName := t.friendlyName, version := version,
    fullName := t.name ++ '@' :: version, description := t.description,
    category := category, documentationPath := documentationPath,
    inputs := t.inputs }

/-- Embedding of `searchTasks`. -/
def searchTasks (tasks : List PipelineTask) (query : Str)
    (category : Option TaskCategory) : List PipelineTask :=
  let lowerQuery := toLowerStr query
  tasks.filter fun task =>
    (match category with
     | some c => task.category == c
     | none => true) &&
    (containsPat lowerQuery (toLowerStr task.name) ||
     containsPat lowerQuery (toLowerStr task.displayName) ||
     containsPat lowerQuery (toLowerStr task.description) ||
     containsPat lowerQuery (toLowerStr task.fullName))

/-! ## The search handler with its network outcomes as oracles -/

/-- Failure of the Azure DevOps API listing path (constructor throw on
missing configuration, or any network/HTTP error of the listing call). -/
inductive ApiErr
  | configMissing
  | network
  | http
deriving DecidableEq, Repr

/-- Failure classes raised by the HTTP client as seen by the handlers. -/
inductive FetchErr
  | notFound
  | timeout
  | rateLimited
  | serverError
deriving DecidableEq, Repr

structure SearchTasksResult where
  tasks : List PipelineTask
  totalCount : Nat
  query : Str
  category : Option TaskCategory
  source : Str
deriving DecidableEq, Repr

/-- Observable outcome of `handleSearchPipelineTasks`: a JSON result, the
structured index-not-found error payload, or a rethrown fetch error. -/
inductive SearchOutcome
  | ok (r : SearchTasksResult)
  | indexNotFound
  | thrown (e : FetchErr)
deriving DecidableEq, Repr

structure SearchEnv where
  apiTasks : Except ApiErr (List TaskDefinition)
  indexDoc : Except FetchErr Str
deriving Repr

/-- Embedding of `handleSearchPipelineTasks`: try the Azure DevOps API
listing, and on any failure fall back to the public index. -/
def handleSearchPipelineTasks (query : Str) (category : Option TaskCategory)
    (env : SearchEnv) : SearchOutcome :=
  match env.apiTasks with
  | .ok apiTasks =>
    let pipelineTasks := apiTasks.map convertApiTaskToPipelineTask
    let matched := searchTasks pipelineTasks query category
    .ok { tasks := matched, totalCount := matched.length, query := query,
          category := category, source := "azure-devops-api".toList }
  | .error _ =>
    match env.indexDoc with
    | .ok markdown =>
      let allTasks := parseTaskIndex markdown
      let matched := searchTasks allTasks query category
      .ok { tasks := matched, totalCount := matched.length, query := query,
            category := category, source := "public-docs".toList }
    | .error .notFound => .indexNotFound
    | .error e => .thrown e

/-! ## Data model of src/tools/task-reference.ts -/

structure TaskInput where
  name : Str
  label : Str
  type : Str
  required : Bool
  defaultValue : Option Str
  allowedValues : Option (List Str)
  aliases : Option (List Str)
  helpText : Option Str
deriving DecidableEq, Repr

structure TaskReference where
  name : Str
  version : Str
  fullName : Str
  description : Str
  syntaxStr : Option Str
  inputs : List TaskInput
  outputVariables : List Str
  remarks : Option Str
  examples : Option Str
deriving DecidableEq, Repr

/-! ### Sentinel literals of the markdown micro-syntax -/

def itemOpenL : Str := "<!-- :::item name=\"".toList

def itemCloseL : Str := "\"::: -->".toList

def editEndL : Str := "<!-- :::editable-content-end::: -->".toList

def descOpenL : Str := "<!-- :::editable-content name=\"description\"::: -->".toList

def helpOpenL : Str := "<!-- :::editable-content name=\"helpMarkDown\"::: -->".toList

def synOpenL : Str := "<!-- :::syntax::: -->".toList

def synEndL : Str := "<!-- :::syntax-end::: -->".toList

def inOpenL : Str := "<!-- :::inputs::: -->".toList

def inEndL : Str := "<!-- :::inputs-end::: -->".toList

def outOpenL : Str := "<!-- :::outputVariables::: -->".toList

def outEndL : Str := "<!-- :::outputVariables-end::: -->".toList

def remOpenL : Str := "<!-- :::remarks::: -->".toList

def remEndL : Str := "<!-- :::remarks-end::: -->".toList

def exOpenL : Str := "<!-- :::examples::: -->".toList

def exEndL : Str := "<!-- :::examples-end::: -->".toList

def quoteChar : Char := Char.ofNat 39

/-! ### Shared scanner for `open\s*\n([\s\S]*?)\n\s*close` blocks -/

/-- Lazy search for the closing `\n\s*close` of an editable-content block:
the capture grows until the first newline that is followed (through
whitespace) by the closing literal. -/
def scanNlWsClose (cl : Str) : Str → Option Str
  | [] => none
  | c :: cs =>
    if c = '\n' ∧ pfx cl (cs.dropWhile isWsChar) = true then some []
    else
      match scanNlWsClose cl cs with
      | some cap => some (c :: cap)
      | none => none

/-- All suffixes of `r` that follow one of its newlines, later newlines
first (the backtracking order of a greedy `\s*` before a literal `\n`). -/
def nlSuffixes (r : Str) : List Str :=
  (((List.range r.length).filterMap
    (fun i => if r.get? i = some '\n' then some (r.drop (i + 1)) else none))).reverse

def firstSome {α : Type} (l : List (Option α)) : Option α :=
  (l.filterMap id).head?

/-- Embedding of a regex `/op\s*\n([\s\S]*?)\n\s*cl/` for literal sentinels:
scan for `op`; take the whitespace run after it, try each newline split of
that run (greedy first), then the lazy capture up to `\n\s*cl`. -/
def findColonBlock (op cl : Str) : Str → Option Str
  | [] => none
  | c :: cs =>
    if pfx op (c :: cs) then
      let rest := (c :: cs).drop op.length
      let r := rest.takeWhile isWsChar
      if r.contains '\n' then
        firstSome ((nlSuffixes r).map (fun suf => scanNlWsClose cl (suf ++ rest.dropWhile isWsChar)))
      else findColonBlock op cl cs
    else findColonBlock op cl cs

/-! ### parseDescription -/

/-- The `[\s\S]*?description:\s*(.+?)\s*\n[\s\S]*?---` part of the
front-matter regex: try each `description:` occurrence left to right. -/
def descLoop : Nat → Str → Option Str
  | 0, _ => none
  | _ + 1, [] => none
  | fuel + 1, c :: cs =>
    if pfx ("description:".toList) (c :: cs) then
      let t2 := ((c :: cs).drop ("description:".toList).length).dropWhile isWsChar
      let seg := t2.takeWhile (fun ch => ch != '\n')
      let t3 := t2.drop seg.length
      if seg ≠ [] ∧ t3 ≠ [] ∧ containsPat ("---".toList) (t3.drop 1) = true then
        some (trimRightStr seg)
      else descLoop fuel cs
    else descLoop fuel cs

/-- Embedding of the front-matter regex
`^---\s*\n[\s\S]*?description:\s*(.+?)\s*\n[\s\S]*?---` (anchored, no flags). -/
def frontMatterDesc (md : Str) : Option Str :=
  if pfx ("---".toList) md then
    let rest := md.drop 3
    let r := rest.takeWhile isWsChar
    if r.contains '\n' then descLoop rest.length (rest.dropWhile isWsChar)
    else none
  else none

/-- Embedding of `parseDescription`. -/
def parseDescription (markdown : Str) : Str :=
  match frontMatterDesc markdown with
  | some cap => trimStr cap
  | none =>
    match findColonBlock descOpenL editEndL markdown with
    | some cap => trimStr cap
    | none => []

/-! ### parseSyntax -/

def fence7 : Str := "```yaml".toList

def fence3 : Str := "```".toList

/-- Embedding of the regex `/```yaml\s*\n([\s\S]*?)```/`: scan for the
fence, require a newline inside the following whitespace run (greedy
`\s*` backtracking to the run's last newline), then the lazy capture up
to the first closing fence.  If a fence opening has a newline but no
closing fence anywhere after it, no later occurrence can match either
(any later `\x60\x60\x60yaml` would itself provide a closing fence). -/
def findYamlFrom : Str → Option Str
  | [] => none
  | c :: cs =>
    if pfx fence7 (c :: cs) then
      let rest := (c :: cs).drop 7
      let r := rest.takeWhile isWsChar
      if r.contains '\n' then
        match splitFirst fence3 (afterLastNl r ++ rest.dropWhile isWsChar) with
        | some (body, _) => some body
        | none => none
      else findYamlFrom cs
    else findYamlFrom cs

/-- Embedding of `parseSyntax`. -/
def parseSyntax (markdown : Str) : Option Str :=
  match extractBetween synOpenL synEndL markdown with
  | none => none
  | some sect =>
    match findYamlFrom sect with
    | none => none
    | some code => some (trimStr code)

/-! ### parseInputBlock -/

/-- Embedding of `/<!-- :::item name="([^"]+)"::: -->/` (first occurrence). -/
def findItemName : Str → Option Str
  | [] => none
  | c :: cs =>
    if pfx itemOpenL (c :: cs) then
      let rest := (c :: cs).drop itemOpenL.length
      let cap := rest.takeWhile (fun ch => ch != '"')
      if cap ≠ [] ∧ pfx itemCloseL (rest.drop cap.length) = true then some cap
      else findItemName cs
    else findItemName cs

/-- Continuation of the label regex after its opening `**\x60`. -/
def labelAttempt (r1 : Str) : Option Str :=
  let nameTok := r1.takeWhile (fun ch => ch != '`')
  if nameTok = [] then none
  else if pfx ("`**".toList) (r1.drop nameTok.length) then
    match ((r1.drop nameTok.length).drop 3).dropWhile isWsChar with
    | '-' :: r4 =>
      let r5 := r4.dropWhile isWsChar
      if pfx ("**".toList) r5 then
        let r6 := r5.drop 2
        let cap := r6.takeWhile (fun ch => ch != '*')
        if cap ≠ [] ∧ pfx ("**".toList) (r6.drop cap.length) = true then some cap
        else none
      else none
    | _ => none
  else none

/-- Embedding of the label regex `/\*\*`[^`]+`\*\*\s*-\s*\*\*([^*]+)\*\*/`. -/
def findLabel : Str → Option Str
  | [] => none
  | c :: cs =>
    if pfx ("**`".toList) (c :: cs) then
      match labelAttempt ((c :: cs).drop 3) with
      | some cap => some cap
      | none => findLabel cs
    else findLabel cs

def typeToks : List Str :=
  ["string", "boolean", "int", "filePath", "multiLine", "secureFile",
   "identities", "radio", "pickList", "queryControl"].map String.toList

/-- Alternation of the type regex, tried in source order at one backtick. -/
def tryTypeTok (s : Str) : Option Str :=
  typeToks.findSome? (fun tok => if pfx (tok ++ ['`']) s then some tok else none)

/-- Embedding of the type regex
`` /`(string|boolean|int|filePath|multiLine|secureFile|identities|radio|pickList|queryControl)`/ ``. -/
def findTypeTok : Str → Option Str
  | [] => none
  | c :: cs =>
    if c = '`' then
      match tryTypeTok cs with
      | some t => some t
      | none => findTypeTok cs
    else findTypeTok cs

/-- Embedding of the test `/\.\s*Required\b/.test(block)`. -/
def requiredTest : Str → Bool
  | [] => false
  | c :: cs =>
    if c = '.' then
      let r := cs.dropWhile isWsChar
      if pfx ("Required".toList) r then
        match r.drop 8 with
        | [] => true
        | d :: _ => if isWordChar d then requiredTest cs else true
      else requiredTest cs
    else requiredTest cs

/-- Embedding of `` /Default value:\s*`([^`]*)`/ `` (capture may be empty). -/
def findDefaultValue : Str → Option Str
  | [] => none
  | c :: cs =>
    if pfx ("Default value:".toList) (c :: cs) then
      match ((c :: cs).drop ("Default value:".toList).length).dropWhile isWsChar with
      | '`' :: r2 =>
        let cap := r2.takeWhile (fun ch => ch != '`')
        if r2.drop cap.length ≠ [] then some cap
        else findDefaultValue cs
      | _ => findDefaultValue cs
    else findDefaultValue cs

/-- Continuation of `` /Default:\s*`?([^`.]+)`?\./ `` after `Default:` + whitespace. -/
def inlineDefaultAttempt (r : Str) : Option Str :=
  let r1 := match r with | '`' :: t => t | _ => r
  let cap := r1.takeWhile (fun ch => ch != '`' && ch != '.')
  if cap = [] then none
  else
    match r1.drop cap.length with
    | '.' :: _ => some cap
    | '`' :: '.' :: _ => some cap
    | _ => none

def findInlineDefault : Str → Option Str
  | [] => none
  | c :: cs =>
    if pfx ("Default:".toList) (c :: cs) then
      match inlineDefaultAttempt (((c :: cs).drop ("Default:".toList).length).dropWhile isWsChar) with
      | some cap => some cap
      | none => findInlineDefault cs
    else findInlineDefault cs

/-- The `` (?:`\s*,\s*`[^`]+)* `` repetitions of the allowed-values regex;
the backtick that would start a failing repetition is the closing backtick. -/
def allowedLoop : Nat → Str → List Str
  | 0, _ => []
  | f + 1, s =>
    match s.dropWhile isWsChar with
    | ',' :: t2 =>
      match t2.dropWhile isWsChar with
      | '`' :: t4 =>
        let ch := t4.takeWhile (fun c => c != '`')
        if ch = [] ∨ t4.drop ch.length = [] then []
        else ch :: allowedLoop f ((t4.drop ch.length).drop 1)
      | _ => []
    | _ => []

/-- Attempt of `` /Allowed values:\s*`([^`]+(?:`\s*,\s*`[^`]+)*)`/ `` after the
prefix and whitespace; the value list equals the backtick-quoted chunks
(matching the `match[0].match(/`([^`]+)`/g)` post-processing). -/
def allowedAttempt (r : Str) : Option (List Str) :=
  match r with
  | '`' :: r1 =>
    let ch := r1.takeWhile (fun c => c != '`')
    if ch = [] ∨ r1.drop ch.length = [] then none
    else some (ch :: allowedLoop ((r1.drop ch.length).drop 1).length ((r1.drop ch.length).drop 1))
  | _ => none

def findAllowed : Str → Option (List Str)
  | [] => none
  | c :: cs =>
    if pfx ("Allowed values:".toList) (c :: cs) then
      match allowedAttempt (((c :: cs).drop ("Allowed values:".toList).length).dropWhile isWsChar) with
      | some vs => some vs
      | none => findAllowed cs
    else findAllowed cs

/-- Greedy repetitions of `` (?:\s*\|\s*'([^']+)')+ ``; returns the parsed
items and the remainder after the last complete repetition. -/
def pipeLoop : Nat → Str → List Str × Str
  | 0, s => ([], s)
  | f + 1, s =>
    match s.dropWhile isWsChar with
    | c :: t2 =>
      if c = '|' then
        match t2.dropWhile isWsChar with
        | d :: t4 =>
          if d = quoteChar then
            let ch := t4.takeWhile (fun e => e != quoteChar)
            if ch = [] ∨ t4.drop ch.length = [] then ([], s)
            else
              let res := pipeLoop f ((t4.drop ch.length).drop 1)
              (ch :: res.1, res.2)
          else ([], s)
        | [] => ([], s)
      else ([], s)
    | [] => ([], s)

/-- Attempt of `` /`'([^']+)'(?:\s*\|\s*'([^']+)')+`/ `` after its opening
`` `' ``: only the maximal repetition count can be followed by the closing
backtick, and at least one repetition is required. -/
def pipeAttempt (r : Str) : Option (List Str) :=
  let ch := r.takeWhile (fun e => e != quoteChar)
  if ch = [] ∨ r.drop ch.length = [] then none
  else
    let res := pipeLoop (r.drop (ch.length + 1)).length (r.drop (ch.length + 1))
    if res.1 ≠ [] ∧ pfx ['`'] res.2 = true then some (ch :: res.1) else none

def findPipeAllowed : Str → Option (List Str)
  | [] => none
  | c :: cs =>
    if pfx ('`' :: [quoteChar]) (c :: cs) then
      match pipeAttempt ((c :: cs).drop 2) with
      | some vs => some vs
      | none => findPipeAllowed cs
    else findPipeAllowed cs

/-- Tail of the alias regex after a candidate `:`. -/
def aliasTail (cs : Str) : Option Str :=
  match cs.dropWhile isWsChar with
  | '`' :: t2 =>
    let ch := t2.takeWhile (fun c => c != '`')
    if ch ≠ [] ∧ t2.drop ch.length ≠ [] then some ch else none
  | _ => none

/-- The lazy `.*?:` of the alias regex: try each `:` before the next
newline, growing past it on failure. -/
def aliasCont : Str → Option Str
  | [] => none
  | c :: cs =>
    if c = '\n' then none
    else if c = ':' then
      match aliasTail cs with
      | some a => some a
      | none => aliasCont cs
    else aliasCont cs

/-- Embedding of `` /\[Input alias\].*?:\s*`([^`]+)`/ ``. -/
def findAlias : Str → Option Str
  | [] => none
  | c :: cs =>
    if pfx ("[Input alias]".toList) (c :: cs) then
      match aliasCont ((c :: cs).drop ("[Input alias]".toList).length) with
      | some a => some a
      | none => findAlias cs
    else findAlias cs

/-- Embedding of `parseInputBlock`. -/
def parseInputBlock (block : Str) : Option TaskInput :=
  match findItemName block with
  | none => none
  | some name =>
    let label := match findLabel block with | some cap => trimStr cap | none => name
    let type := (findTypeTok block).getD ("string".toList)
    let required := requiredTest block
    let defaultValue :=
      match findDefaultValue block with
      | some d => some d
      | none => (findInlineDefault block).map trimStr
    let allowedValues :=
      match findAllowed block with
      | some vs => some vs
      | none => findPipeAllowed block
    let aliases := (findAlias block).map (fun a => [a])
    let helpText :=
      match findColonBlock helpOpenL editEndL block with
      | some t => if trimStr t = [] then none else some (trimStr t)
      | none => none
    some { name, label, type, required, defaultValue, allowedValues, aliases, helpText }

/-! ### parseInputs / parseOutputVariables -/

/-- Embedding of `split(/(?=<!-- :::item name=")/)`: boundaries at every
occurrence of the lookahead literal except position 0. -/
def splitBeforeItemAux : Nat → Str → Str → List Str
  | 0, acc, s => [acc.reverse ++ s]
  | _ + 1, acc, [] => [acc.reverse]
  | f + 1, acc, c :: cs =>
    if acc ≠ [] ∧ pfx itemOpenL (c :: cs) = true then acc.reverse :: splitBeforeItemAux f [c] cs
    else splitBeforeItemAux f (c :: acc) cs

/-- Embedding of `parseInputs`. -/
def parseInputs (markdown : Str) : List TaskInput :=
  match extractBetween inOpenL inEndL markdown with
  | none => []
  | some sect =>
    ((splitBeforeItemAux (sect.length + 1) [] sect).filter
      (fun b => containsPat (":::item name=".toList) b)).filterMap parseInputBlock

/-- Global scan of the item regex, collecting every capture. -/
def collectItemNames : Nat → Str → List Str
  | 0, _ => []
  | _ + 1, [] => []
  | f + 1, c :: cs =>
    if pfx itemOpenL (c :: cs) then
      let rest := (c :: cs).drop itemOpenL.length
      let cap := rest.takeWhile (fun ch => ch != '"')
      if cap ≠ [] ∧ pfx itemCloseL (rest.drop cap.length) = true then
        cap :: collectItemNames f ((rest.drop cap.length).drop itemCloseL.length)
      else collectItemNames f cs
    else collectItemNames f cs

/-- Embedding of `parseOutputVariables`. -/
def parseOutputVariables (markdown : Str) : List Str :=
  match extractBetween outOpenL outEndL markdown with
  | none => []
  | some sect => collectItemNames sect.length sect

/-! ### parseRemarks / parseExamples -/

/-- Embedding of `.replace(/^:::moniker.*$/gm, "")`. -/
def stripMonikerLines (s : Str) : Str :=
  joinNl ((splitOnNl s).map (fun l => if pfx (":::moniker".toList) l then [] else l))

/-- Embedding of `.replace(/<!-- :::editable-content[^>]*-->/g, "")`: the
greedy `[^>]*` runs to the first `>`, whose two preceding characters must
be `--`. -/
def removeEditableOpenAux : Nat → Str → Str
  | 0, s => s
  | _ + 1, [] => []
  | f + 1, c :: cs =>
    if pfx ("<!-- :::editable-content".toList) (c :: cs) then
      let rest := (c :: cs).drop ("<!-- :::editable-content".toList).length
      let a := rest.takeWhile (fun ch => ch != '>')
      if 2 ≤ a.length ∧ pfx ("--".toList) (a.drop (a.length - 2)) = true ∧ rest.drop a.length ≠ [] then
        removeEditableOpenAux f ((rest.drop a.length).drop 1)
      else c :: removeEditableOpenAux f cs
    else c :: removeEditableOpenAux f cs

/-- Global removal of a literal pattern. -/
def removeLiteralAllAux (lit : Str) : Nat → Str → Str
  | 0, s => s
  | _ + 1, [] => []
  | f + 1, c :: cs =>
    if pfx lit (c :: cs) then removeLiteralAllAux lit f ((c :: cs).drop lit.length)
    else c :: removeLiteralAllAux lit f cs

/-- Embedding of `.replace(/^##\s*H\s*\n*/i, "")` for a heading word `H`. -/
def stripHeading (heading : Str) (s : Str) : Str :=
  if pfx ("##".toList) s then
    let r1 := (s.drop 2).dropWhile isWsChar
    if toLowerStr (r1.take heading.length) == toLowerStr heading then
      (r1.drop heading.length).dropWhile isWsChar
    else s
  else s

/-- The shared post-processing of the remarks/examples regions. -/
def transformRegion (sect : Str) (heading : Str) : Option Str :=
  let c1 := stripMonikerLines sect
  let c2 := removeEditableOpenAux c1.length c1
  let c3 := removeLiteralAllAux editEndL c2.length c2
  let c5 := trimStr (stripHeading heading (trimStr c3))
  if c5 = [] then none else some c5

/-- Embedding of `parseRemarks`. -/
def parseRemarks (markdown : Str) : Option Str :=
  match extractBetween remOpenL remEndL markdown with
  | none => none
  | some sect => transformRegion sect ("Remarks".toList)

/-- Embedding of `parseExamples`. -/
def parseExamples (markdown : Str) : Option Str :=
  match extractBetween exOpenL exEndL markdown with
  | none => none
  | some sect => transformRegion sect ("Examples".toList)

/-- Embedding of `parseTaskMarkdown`: the identity fields come verbatim
from the caller's arguments, the content fields from the document. -/
def parseTaskMarkdown (markdown name version : Str) : TaskReference :=
  { name := name, version := version, fullName := name ++ '@' :: version,
    description := parseDescription markdown,
    syntaxStr := parseSyntax markdown,
    inputs := parseInputs markdown,
    outputVariables := parseOutputVariables markdown,
    remarks := parseRemarks markdown,
    examples := parseExamples markdown }

/-! ## The single-task resolution orchestrator (part_002 revision) -/

/-- Embedding of `findTaskInIndex` applied to an already-fetched index. -/
def findTaskInIndex (fullName : Str) (indexMarkdown : Str) : Option PipelineTask :=
  (parseTaskIndex indexMarkdown).find? (fun t => toLowerStr t.fullName == toLowerStr fullName)

/-- Embedding of `generateSyntax` (note the JavaScript truthiness on
`defaultValue`: an empty default renders the placeholder). -/
def generateSyntax (name version : Str) (inputs : List TaskInput) : Str :=
  ("- task: ".toList) ++ name ++ '@' :: version ++ ("\n  inputs:\n".toList) ++
  (inputs.foldl (fun acc i =>
    acc ++ ("    ".toList) ++ i.name ++ (": ".toList) ++
      (match i.defaultValue with
       | some d => if d = [] then "string".toList else d
       | none => "string".toList) ++
      (if i.required then [] else " # Optional".toList) ++ ['\n']) [])

/-- Embedding of `convertTaskDefinitionToReference`. -/
def convertTaskDefinitionToReference (t : TaskDefinition) : TaskReference :=
  let version := natToStr t.versionMajor
  let inputs : List TaskInput := (t.inputs.getD []).map (fun i =>
    { name := i.name, label := i.label, type := i.type,
      required := i.required.getD false,
      defaultValue := i.defaultValue,
      allowedValues := i.options.map (fun os => os.map Prod.fst),
      aliases := none,
      helpText := i.helpMarkDown })
  { name := t.name, version := version, fullName := t.name ++ '@' :: version,
    description := t.description,
    syntaxStr := some (generateSyntax t.name version inputs),
    inputs := inputs, outputVariables := [],
    remarks := t.helpMarkDown, examples := none }

/-- Embedding of `findTaskInOrganization`: exact case-insensitive name and
exact major-version match; every API failure is swallowed into `none`. -/
def findTaskInOrganization (taskName version : Str)
    (api : Except ApiErr (List TaskDefinition)) : Option TaskReference :=
  match api with
  | .error _ => none
  | .ok ts =>
    match ts.find? (fun t =>
        toLowerStr t.name == toLowerStr taskName && natToStr t.versionMajor == version) with
    | some t => some (convertTaskDefinitionToReference t)
    | none => none

/-- Network outcomes available to one single-task resolution. -/
structure RefEnv where
  indexDoc : Except FetchErr Str
  docFetch : Str → Except FetchErr Str
  apiTasks : Except ApiErr (List TaskDefinition)

/-- Observable outcome of `handleGetTaskReference`. -/
inductive TaskRefOutcome
  | malformed
  | ok (ref : TaskReference)
  | notFoundAnywhere
  | docUnreadable (path : Str)
deriving DecidableEq, Repr

/-- Embedding of `handleGetTaskReference` (part_002 revision): validate the
identifier, try the public index + detail extraction, and fall back to the
Azure DevOps API on public-path failure. -/
def handleGetTaskReference (taskName : Str) (env : RefEnv) : TaskRefOutcome :=
  match matchTaskId taskName with
  | none => .malformed
  | some (name, version) =>
    let taskInfo : Option PipelineTask :=
      match env.indexDoc with
      | .error _ => none
      | .ok md => findTaskInIndex taskName md
    match taskInfo with
    | some info =>
      match env.docFetch info.documentationPath with
      | .ok markdown => .ok (parseTaskMarkdown markdown name version)
      | .error _ =>
        match findTaskInOrganization name version env.apiTasks with
        | some ref => .ok ref
        | none => .docUnreadable info.documentationPath
    | none =>
      match findTaskInOrganization name version env.apiTasks with
      | some ref => .ok ref
      | none => .notFoundAnywhere

/-! ## The resilient fetch layer (http-client.ts, fetchWithRetry) -/

/-- Failure classes thrown by one network attempt (`doFetch`). -/
inductive AttemptError
  | notFound
  | timeout
  | rateLimited (retryAfter : Option Nat)
  | server
deriving DecidableEq, Repr

/-- What `fetchWithRetry` ultimately raises: an attempt error rethrown
as-is, or the aggregate `HttpClientError` wrapping the last cause. -/
inductive RetryError
  | raised (e : AttemptError)
  | aggregate (last : Option AttemptError)
deriving DecidableEq, Repr

/-- Embedding of the `for` loop of `fetchWithRetry`.  `k` counts the
remaining iterations (`attempt + k = retries + 1` at the call site), the
oracle gives each attempt's outcome, and the trace records the sleeps
performed (in order) and the number of attempts made. -/
def fetchLoop (d retries : Nat) (oracle : Nat → Except AttemptError Str) :
    Nat → Nat → Option AttemptError → List Nat → Nat →
    Except RetryError Str × List Nat × Nat
  | 0, _, lastErr, delays, calls => (.error (.aggregate lastErr), delays.reverse, calls)
  | k + 1, attempt, _, delays, calls =>
    match oracle attempt with
    | .ok body => (.ok body, delays.reverse, calls + 1)
    | .error .notFound => (.error (.raised .notFound), delays.reverse, calls + 1)
    | .error .timeout => (.error (.raised .timeout), delays.reverse, calls + 1)
    | .error (.rateLimited ra) =>
      if attempt < retries then
        fetchLoop d retries oracle k (attempt + 1) (some (.rateLimited ra))
          ((match ra with | some s => s * 1000 | none => d * attempt * 2) :: delays) (calls + 1)
      else (.error (.raised (.rateLimited ra)), delays.reverse, calls + 1)
    | .error .server =>
      if attempt < retries then
        fetchLoop d retries oracle k (attempt + 1) (some .server)
          ((d * 2 ^ (attempt - 1)) :: delays) (calls + 1)
      else fetchLoop d retries oracle k (attempt + 1) (some .server) delays (calls + 1)

/-- Embedding of `fetchWithRetry`: result, the sleeps performed, and the
number of attempts consumed. -/
def fetchWithRetry (retries d : Nat) (oracle : Nat → Except AttemptError Str) :
    Except RetryError Str × List Nat × Nat :=
  fetchLoop d retries oracle retries 1 none [] 0

/-- The language `^[A-Za-z0-9_-]+@\d+$` stated declaratively, following the
spec's words (to be compared with the `matchTaskId` scanner from the source). -/
def specTaskIdLang (s : Str) : Prop :=
  ∃ nm ds : Str, s = nm ++ '@' :: ds ∧ nm ≠ [] ∧ nm.all isNameChar = true ∧
    ds ≠ [] ∧ ds.all isDigitChar = true

/-- Declarative reading of the `required` regex `\.\s*Required\b`: a period,
whitespace, the token `Required`, and no word character right after it. -/
def RequiredProp (block : Str) : Prop :=
  ∃ a mid b : Str, block = a ++ '.' :: (mid ++ ("Required".toList) ++ b) ∧
    mid.all isWsChar = true ∧
    (b = [] ∨ ∃ d b', b = d :: b' ∧ isWordChar d = false)

/-! ### Scenario shapes for the syntax-region claim -/

/-- The pattern `pat` has no occurrence starting before position `bound` of `s`. -/
abbrev noOccursBefore (pat s : Str) (bound : Nat) : Prop :=
  ∀ n, n < bound → pfx pat (s.drop n) = false

/-- A later (older-range) variant of the syntax region: surrounding moniker
text, a fenced configuration block, and trailing text. -/
def synVariantTail (mid2 code2 tail : Str) : Str :=
  mid2 ++ (fence7 ++ '\n' :: (code2 ++ fence3 ++ tail))

/-- The body of a syntax region whose first variant carries `code1`,
followed by arbitrary further content `rest`. -/
def synRegionBody (mid1 code1 rest : Str) : Str :=
  mid1 ++ (fence7 ++ '\n' :: (code1 ++ fence3 ++ rest))

/-- A task document whose syntax region holds two version-moniker variants
with fenced code blocks `code1` (most current) and `code2` (older). -/
def twoVariantSyntaxDoc (pre mid1 code1 mid2 code2 tail post : Str) : Str :=
  pre ++ synOpenL ++ (synRegionBody mid1 code1 (synVariantTail mid2 code2 tail) ++ synEndL ++ post)

/-! ### Concrete fixtures for the orchestrator claims -/

def idxC10 : Str :=
  ("## Build tasks\n| **.NET Core**<br>[DotNetCoreCLI@2](dotnet-core-cli-v2.md) | Build. |").toList

def docC10 : Str := ("---\ndescription: Docs text.\n---\n").toList

def envC10 : RefEnv :=
  ⟨.ok idxC10,
   fun p => if p = ("dotnet-core-cli-v2.md".toList) then .ok docC10 else .error .notFound,
   .error .configMissing⟩

def idxC1 : Str := ("## Build tasks\n| **Alpha**<br>[Alpha@1](a.md) | D |").toList

def docC1 : Str := ("---\ndescription: From docs.\n---\n").toList

def apiTaskC1 : TaskDefinition :=
  { name := "Alpha".toList, friendlyName := "Alpha friendly".toList,
    description := "From api.".toList, category := none, versionMajor := 1,
    helpMarkDown := none, inputs := none }

def envC1 : RefEnv := ⟨.ok idxC1, fun _ => .ok docC1, .ok [apiTaskC1]⟩

/-- Oracle whose every attempt is rate-limited with no advertised delay. -/
def rlOracle : Nat → Except AttemptError Str := fun _ => .error (.rateLimited none)

/-- An input block whose type token is followed by `. Required`. -/
def blockC8T : Str :=
  ("<!-- :::item name=\"command\"::: -->\n`string`. Required. Some help.\n").toList

/-- An input block lacking the `Required` token. -/
def blockC8F : Str :=
  ("<!-- :::item name=\"command\"::: -->\n`string`. Optional text.\n").toList

def inpC8T : TaskInput :=
  { name := "command".toList, label := "command".toList, type := "string".toList,
    required := true, defaultValue := none, allowedValues := none,
    aliases := none, helpText := none }

/-! # Theorems -/

/-! ## General-purpose lemmas about the string scanners -/

theorem pfx_eq_append (p : Str) : ∀ s, pfx p s = true → s = p ++ s.drop p.length := by
  induction p with
  | nil => intro s _; simp
  | cons c cs ih =>
    intro s h
    cases s with
    | nil => simp [pfx] at h
    | cons b bs =>
      simp only [pfx, Bool.and_eq_true, beq_iff_eq] at h
      obtain ⟨rfl, h2⟩ := h
      simpa using ih bs h2

theorem all_takeWhile (p : Char → Bool) (l : Str) : (l.takeWhile p).all p = true := by
  induction l with
  | nil => rfl
  | cons c cs ih =>
    by_cases h : p c = true
    · simp [List.takeWhile, h, ih]
    · simp [List.takeWhile, Bool.eq_false_iff.mpr h]

theorem takeWhile_append_of (p : Char → Bool) (a : Str) (c : Char) (b : Str)
    (ha : a.all p = true) (hc : p c = false) :
    (a ++ c :: b).takeWhile p = a := by
  induction a with
  | nil => simp [List.takeWhile, hc]
  | cons x xs ih =>
    simp only [List.all_cons, Bool.and_eq_true] at ha
    simp [List.takeWhile, ha.1, ih ha.2]

theorem dropWhile_append_of (p : Char → Bool) (a : Str) (c : Char) (b : Str)
    (ha : a.all p = true) (hc : p c = false) :
    (a ++ c :: b).dropWhile p = c :: b := by
  induction a with
  | nil => simp [List.dropWhile, hc]
  | cons x xs ih =>
    simp only [List.all_cons, Bool.and_eq_true] at ha
    simp [List.dropWhile, ha.1, ih ha.2]

/-! ## C9: searchTasks with the empty query -/

/-- C9: For every task list and every category filter, `searchTasks` called
with the empty query returns exactly the tasks passing the category filter
(the whole list when no category is given): the empty substring matches
every name, display name, description and full name. -/
theorem c9_empty_query_is_category_filter :
    (∀ (tasks : List PipelineTask) (c : TaskCategory),
      searchTasks tasks [] (some c) = tasks.filter (fun t => t.category == c)) ∧
    (∀ tasks : List PipelineTask, searchTasks tasks [] none = tasks) := by
  constructor
  · intro tasks c
    unfold searchTasks
    refine List.filter_congr ?_
    intro t _
    simp [toLowerStr, containsPat_nil]
  · intro tasks
    unfold searchTasks
    have h : ∀ t ∈ tasks,
        ((match (none : Option TaskCategory) with
          | some c => t.category == c
          | none => true) &&
         (containsPat (toLowerStr []) (toLowerStr t.name) ||
          containsPat (toLowerStr []) (toLowerStr t.displayName) ||
          containsPat (toLowerStr []) (toLowerStr t.description) ||
          containsPat (toLowerStr []) (toLowerStr t.fullName))) = true := by
      intro t _
      simp [toLowerStr, containsPat_nil]
    calc tasks.filter _ = tasks.filter (fun _ => true) := List.filter_congr (by simpa using h)
      _ = tasks := List.filter_true tasks

/-! ## C2: search falls back to the public index on any API failure -/

/-- C2: For every query, if the Azure DevOps API listing path fails for any
reason (including missing configuration), the error is not propagated: the
handler falls back to fetching and parsing the public index and returns a
non-error result whose source field is `"public-docs"`. -/
theorem c2_search_api_failure_falls_back :
    ∀ (query : Str) (category : Option TaskCategory) (e : ApiErr) (markdown : Str),
      ∃ res : SearchTasksResult,
        handleSearchPipelineTasks query category ⟨.error e, .ok markdown⟩ = .ok res ∧
        res.source = "public-docs".toList ∧
        res.tasks = searchTasks (parseTaskIndex markdown) query category := by
  intro query category e markdown
  exact ⟨_, rfl, rfl, rfl⟩

/-! ## C3: identifier validation -/

theorem matchTaskId_some_iff (s : Str) : (matchTaskId s).isSome = true ↔ specTaskIdLang s := by
  constructor
  · intro h
    unfold matchTaskId at h
    by_cases hnm : s.takeWhile isNameChar = []
    · simp [hnm] at h
    · simp only [hnm, if_false] at h
      cases hdw : s.dropWhile isNameChar with
      | nil => rw [hdw] at h; simp at h
      | cons c ds =>
        rw [hdw] at h
        cases hc : c == '@' with
        | false =>
          have : c ≠ '@' := by simpa using hc
          cases c
          simp_all
        | true =>
          have hceq : c = '@' := by simpa using hc
          subst hceq
          have h' : (if ds ≠ [] ∧ ds.all isDigitChar = true then
              some (s.takeWhile isNameChar, ds) else none).isSome = true := h
          by_cases hds : ds ≠ [] ∧ ds.all isDigitChar = true
          · refine ⟨s.takeWhile isNameChar, ds, ?_, hnm, all_takeWhile _ _, hds.1, hds.2⟩
            conv_lhs => rw [← List.takeWhile_append_dropWhile (p := isNameChar) (l := s)]
            rw [hdw]
          · rw [if_neg hds] at h'
            simp at h'
  · rintro ⟨nm, ds, rfl, hnm, hall, hds, hdig⟩
    have h1 : (nm ++ '@' :: ds).takeWhile isNameChar = nm :=
      takeWhile_append_of _ _ _ _ hall (by decide)
    have h2 : (nm ++ '@' :: ds).dropWhile isNameChar = '@' :: ds :=
      dropWhile_append_of _ _ _ _ hall (by decide)
    unfold matchTaskId
    simp [h1, h2, hnm, hds, hdig]

/-- C3: every string matching `^[A-Za-z0-9_-]+@\d+$` is accepted by the
identifier validation of `handleGetTaskReference`, which then proceeds to
resolution; every other string yields the malformed-input error before any
source is consulted — the result is the error and does not depend on any of
the network oracles. -/
theorem c3_identifier_validation :
    (∀ s : Str, (matchTaskId s).isSome = true ↔ specTaskIdLang s) ∧
    (∀ (s : Str) (env env' : RefEnv), matchTaskId s = none →
      handleGetTaskReference s env = .malformed ∧
      handleGetTaskReference s env = handleGetTaskReference s env') ∧
    (∀ (s : Str) (nm ver : Str) (env : RefEnv), matchTaskId s = some (nm, ver) →
      handleGetTaskReference s env ≠ .malformed) := by
  refine ⟨matchTaskId_some_iff, ?_, ?_⟩
  · intro s env env' h
    constructor
    · unfold handleGetTaskReference
      rw [h]
    · unfold handleGetTaskReference
      rw [h]
  · intro s nm ver env h
    unfold handleGetTaskReference
    rw [h]
    cases henv : env.indexDoc with
    | error e =>
      simp only
      cases findTaskInOrganization nm ver env.apiTasks <;> simp
    | ok md =>
      simp only
      cases hidx : findTaskInIndex s md with
      | none =>
        simp only
        cases findTaskInOrganization nm ver env.apiTasks <;> simp
      | some info =>
        simp only
        cases env.docFetch info.documentationPath with
        | ok doc => simp
        | error e =>
          simp only
          cases findTaskInOrganization nm ver env.apiTasks <;> simp

/-! ## C5: index parsing deduplicates by fullName + category -/

theorem insertLinks_nodup (cat : TaskCategory) (dn desc : Str) :
    ∀ (links : List (Str × Str)) (acc : List PipelineTask),
      (acc.map taskKey).Nodup → ((insertLinks cat dn desc acc links).map taskKey).Nodup := by
  intro links
  induction links with
  | nil => intro acc h; exact h
  | cons link rest ih =>
    intro acc h
    obtain ⟨full, path⟩ := link
    unfold insertLinks
    cases matchTaskId full with
    | none => exact ih acc h
    | some nv =>
      obtain ⟨nm, ver⟩ := nv
      simp only
      by_cases hany : acc.any (fun t => taskKey t == full ++ '-' :: catName cat) = true
      · rw [if_pos hany]
        exact ih acc h
      · rw [if_neg hany]
        apply ih
        rw [List.map_append]
        refine List.Nodup.append h (List.nodup_singleton _) ?_
        intro k hk hk'
        simp only [List.map_cons, List.map_nil, List.mem_singleton] at hk'
        subst hk'
        rw [List.any_eq_true] at hany
        simp only [List.mem_map] at hk
        obtain ⟨t, ht, htk⟩ := hk
        refine hany ⟨t, ht, ?_⟩
        have : taskKey t = full ++ '-' :: catName cat := htk
        simp [this]

theorem indexStep_nodup (st : Option TaskCategory × List PipelineTask) (line : Str)
    (h : (st.2.map taskKey).Nodup) : (((indexStep st line).2).map taskKey).Nodup := by
  unfold indexStep
  cases headingCapture line with
  | some cap => exact h
  | none =>
    cases st.1 with
    | none => exact h
    | some cat =>
      cases rowMatch line with
      | none => exact h
      | some dd => exact insertLinks_nodup _ _ _ _ _ h

theorem foldl_indexStep_nodup (lines : List Str) :
    ∀ st : Option TaskCategory × List PipelineTask,
      (st.2.map taskKey).Nodup → (((lines.foldl indexStep st).2).map taskKey).Nodup := by
  induction lines with
  | nil => intro st h; exact h
  | cons l ls ih => intro st h; exact ih _ (indexStep_nodup st l h)

/-- C5: for every index document, `parseTaskIndex` yields stubs whose
`fullName`+`category` composite keys are pairwise distinct; and on a
document in which the same category heading and the same task row (same
composite key, different display data) appear twice, exactly the first
occurrence's stub is kept. -/
theorem c5_index_dedup_by_fullname_category :
    (∀ md : Str, ((parseTaskIndex md).map taskKey).Nodup) ∧
    parseTaskIndex
        (("## Build tasks\n| **X**<br>[Alpha@1](a.md) | D1 |\n## Build tasks\n| **Y**<br>[Alpha@1](b.md) | D2 |").toList) =
      [{ name := "Alpha".toList, displayName := "X".toList, version := "1".toList,
         fullName := "Alpha@1".toList, description := "D1".toList, category := .build,
         documentationPath := "a.md".toList }] := by
  constructor
  · intro md
    exact foldl_indexStep_nodup _ _ (by simp)
  · decide

/-! ## C10 / C1: the single-task orchestrator -/

theorem matchTaskId_eq_append (s nm ver : Str) (h : matchTaskId s = some (nm, ver)) :
    s = nm ++ '@' :: ver := by
  unfold matchTaskId at h
  by_cases hnm : s.takeWhile isNameChar = []
  · simp [hnm] at h
  · rw [if_neg hnm] at h
    cases hdw : s.dropWhile isNameChar with
    | nil => rw [hdw] at h; simp at h
    | cons c ds =>
      rw [hdw] at h
      by_cases hc : c = '@'
      · subst hc
        have h' : (if ds ≠ [] ∧ ds.all isDigitChar = true then
            some (s.takeWhile isNameChar, ds) else none) = some (nm, ver) := h
        by_cases hds : ds ≠ [] ∧ ds.all isDigitChar = true
        · rw [if_pos hds] at h'
          injection h' with h''
          have h1 : s.takeWhile isNameChar = nm := congrArg Prod.fst h''
          have h2 : ds = ver := congrArg Prod.snd h''
          conv_lhs => rw [← List.takeWhile_append_dropWhile (p := isNameChar) (l := s)]
          rw [hdw, h1, h2]
        · rw [if_neg hds] at h'; cases h'
      · cases c
        simp_all

theorem handleGetTaskReference_public_path (tn nm ver : Str) (env : RefEnv)
    (md : Str) (info : PipelineTask) (docMd : Str)
    (h1 : matchTaskId tn = some (nm, ver))
    (h2 : env.indexDoc = .ok md)
    (h3 : findTaskInIndex tn md = some info)
    (h4 : env.docFetch info.documentationPath = .ok docMd) :
    handleGetTaskReference tn env = .ok (parseTaskMarkdown docMd nm ver) := by
  unfold handleGetTaskReference
  rw [h1]
  simp only [h2, h3, h4]

/-- C10: `handleGetTaskReference` matches the identifier against the index
case-insensitively, but the `name`, `version` and `fullName` of the record
returned by the public path are taken verbatim from the caller's identifier;
concretely, `dotnetcorecli@2` resolves against an index whose canonical
entry is `DotNetCoreCLI@2` yet the returned record echoes the caller's
casing. -/
theorem c10_identifier_echoed_verbatim :
    (∀ (tn nm ver : Str) (env : RefEnv) (md : Str) (info : PipelineTask) (docMd : Str),
      matchTaskId tn = some (nm, ver) →
      env.indexDoc = .ok md →
      findTaskInIndex tn md = some info →
      env.docFetch info.documentationPath = .ok docMd →
      handleGetTaskReference tn env = .ok (parseTaskMarkdown docMd nm ver) ∧
      (parseTaskMarkdown docMd nm ver).name = nm ∧
      (parseTaskMarkdown docMd nm ver).version = ver ∧
      (parseTaskMarkdown docMd nm ver).fullName = tn) ∧
    (∃ r : TaskReference,
      handleGetTaskReference ("dotnetcorecli@2".toList) envC10 = .ok r ∧
      r.fullName = "dotnetcorecli@2".toList ∧
      r.name = "dotnetcorecli".toList ∧
      r.fullName ≠ "DotNetCoreCLI@2".toList ∧
      (parseTaskIndex idxC10).map (fun t => t.fullName) = ["DotNetCoreCLI@2".toList]) := by
  constructor
  · intro tn nm ver env md info docMd h1 h2 h3 h4
    refine ⟨handleGetTaskReference_public_path tn nm ver env md info docMd h1 h2 h3 h4,
      rfl, rfl, ?_⟩
    have := matchTaskId_eq_append tn nm ver h1
    simp [parseTaskMarkdown, this]
  · exact ⟨parseTaskMarkdown docC10 ("dotnetcorecli".toList) ("2".toList),
      by decide, by decide, by decide, by decide, by decide⟩

/-- Witness for C10, applying the general part at the concrete
case-differing lookup. -/
theorem c10_identifier_echoed_verbatim_witness :
    handleGetTaskReference ("dotnetcorecli@2".toList) envC10 =
      .ok (parseTaskMarkdown docC10 ("dotnetcorecli".toList) ("2".toList)) ∧
    (parseTaskMarkdown docC10 ("dotnetcorecli".toList) ("2".toList)).fullName =
      "dotnetcorecli@2".toList := by
  have h := c10_identifier_echoed_verbatim.1 ("dotnetcorecli@2".toList)
    ("dotnetcorecli".toList) ("2".toList) envC10 idxC10
    { name := "DotNetCoreCLI".toList, displayName := ".NET Core".toList,
      version := "2".toList, fullName := "DotNetCoreCLI@2".toList,
      description := "Build.".toList, category := .build,
      documentationPath := "dotnet-core-cli-v2.md".toList }
    docC10 (by decide) rfl (by decide) rfl
  exact ⟨h.1, h.2.2.2⟩

/-- C1 counterexample: an environment in which both the public path and the
Azure DevOps API path can resolve `Alpha@1`, with different descriptions.
The API-side lookup would succeed, yet the handler returns the public-docs
record — so the Inventory API Adapter path is not attempted first and its
success does not short-circuit. -/
theorem c1_counterexample_public_wins :
    findTaskInOrganization ("Alpha".toList) ("1".toList) envC1.apiTasks =
      some (convertTaskDefinitionToReference apiTaskC1) ∧
    (convertTaskDefinitionToReference apiTaskC1).description = "From api.".toList ∧
    handleGetTaskReference ("Alpha@1".toList) envC1 ≠
      .ok (convertTaskDefinitionToReference apiTaskC1) ∧
    handleGetTaskReference ("Alpha@1".toList) envC1 =
      .ok (parseTaskMarkdown docC1 ("Alpha".toList) ("1".toList)) ∧
    (parseTaskMarkdown docC1 ("Alpha".toList) ("1".toList)).description =
      "From docs.".toList := by
  refine ⟨by decide, by decide, by decide, by decide, by decide⟩

/-- C1 (amended): the orchestrator tries the public path first — index
lookup then detail extraction, whose success short-circuits without
consulting the API — and only on public-path failure (index fetch error,
index miss, or documentation fetch error) falls back to the Azure DevOps
API lookup, whose own failure yields the structured error result. -/
theorem c1_public_first_api_fallback :
    (∀ (tn nm ver : Str) (env : RefEnv) (md : Str) (info : PipelineTask) (docMd : Str),
      matchTaskId tn = some (nm, ver) →
      env.indexDoc = .ok md →
      findTaskInIndex tn md = some info →
      env.docFetch info.documentationPath = .ok docMd →
      handleGetTaskReference tn env = .ok (parseTaskMarkdown docMd nm ver)) ∧
    (∀ (tn nm ver : Str) (env : RefEnv) (md : Str) (info : PipelineTask) (e : FetchErr),
      matchTaskId tn = some (nm, ver) →
      env.indexDoc = .ok md →
      findTaskInIndex tn md = some info →
      env.docFetch info.documentationPath = .error e →
      handleGetTaskReference tn env =
        (match findTaskInOrganization nm ver env.apiTasks with
         | some ref => .ok ref
         | none => .docUnreadable info.documentationPath)) ∧
    (∀ (tn nm ver : Str) (env : RefEnv) (md : Str),
      matchTaskId tn = some (nm, ver) →
      env.indexDoc = .ok md →
      findTaskInIndex tn md = none →
      handleGetTaskReference tn env =
        (match findTaskInOrganization nm ver env.apiTasks with
         | some ref => .ok ref
         | none => .notFoundAnywhere)) ∧
    (∀ (tn nm ver : Str) (env : RefEnv) (e : FetchErr),
      matchTaskId tn = some (nm, ver) →
      env.indexDoc = .error e →
      handleGetTaskReference tn env =
        (match findTaskInOrganization nm ver env.apiTasks with
         | some ref => .ok ref
         | none => .notFoundAnywhere)) := by
  refine ⟨?_, ?_, ?_, ?_⟩
  · intro tn nm ver env md info docMd h1 h2 h3 h4
    exact handleGetTaskReference_public_path tn nm ver env md info docMd h1 h2 h3 h4
  · intro tn nm ver env md info e h1 h2 h3 h4
    unfold handleGetTaskReference
    rw [h1]
    simp only [h2, h3, h4]
  · intro tn nm ver env md h1 h2 h3
    unfold handleGetTaskReference
    rw [h1]
    simp only [h2, h3]
  · intro tn nm ver env e h1 h2
    unfold handleGetTaskReference
    rw [h1]
    simp only [h2]

/-- Witness for the amended C1, exercising the public-success conjunct and
the index-miss fallback conjunct on concrete environments. -/
theorem c1_public_first_api_fallback_witness :
    handleGetTaskReference ("Alpha@1".toList) envC1 =
      .ok (parseTaskMarkdown docC1 ("Alpha".toList) ("1".toList)) ∧
    handleGetTaskReference ("Beta@1".toList) envC1 =
      (match findTaskInOrganization ("Beta".toList) ("1".toList) envC1.apiTasks with
       | some ref => .ok ref
       | none => .notFoundAnywhere) := by
  refine ⟨c1_public_first_api_fallback.1 ("Alpha@1".toList) ("Alpha".toList) ("1".toList)
      envC1 idxC1
      { name := "Alpha".toList, displayName := "Alpha".toList, version := "1".toList,
        fullName := "Alpha@1".toList, description := "D".toList, category := .build,
        documentationPath := "a.md".toList }
      docC1 (by decide) rfl (by decide) rfl,
    c1_public_first_api_fallback.2.2.1 ("Beta@1".toList) ("Beta".toList) ("1".toList)
      envC1 idxC1 (by decide) rfl (by decide)⟩

/-! ## C6 / C7: the retry policy of the fetch layer -/

theorem fetchLoop_rateLimited_all (d retries : Nat) (oracle : Nat → Except AttemptError Str)
    (ho : ∀ n, oracle n = .error (.rateLimited none)) :
    ∀ (k attempt : Nat) (lastErr : Option AttemptError) (delays : List Nat) (calls : Nat),
      attempt + k = retries + 1 → 1 ≤ k →
      fetchLoop d retries oracle k attempt lastErr delays calls =
        (.error (.raised (.rateLimited none)),
         delays.reverse ++ (List.range' attempt (retries - attempt)).map (fun a => d * a * 2),
         calls + k) := by
  intro k
  induction k with
  | zero => intro _ _ _ _ _ hk; omega
  | succ k ih =>
    intro attempt lastErr delays calls hsum _
    unfold fetchLoop
    rw [ho attempt]
    simp only
    by_cases hlt : attempt < retries
    · rw [if_pos hlt]
      have hk' : 1 ≤ k := by omega
      rw [ih (attempt + 1) _ _ _ (by omega) hk']
      rw [show retries - attempt = (retries - (attempt + 1)) + 1 by omega, List.range'_succ]
      simp [List.append_assoc]
      omega
    · rw [if_neg hlt]
      have h1 : attempt = retries := by omega
      subst h1
      have h0 : k = 0 := by omega
      subst h0
      simp [Nat.sub_self]

theorem fetchLoop_calls_le (d retries : Nat) (oracle : Nat → Except AttemptError Str) :
    ∀ (k attempt : Nat) (lastErr : Option AttemptError) (delays : List Nat) (calls : Nat),
      (fetchLoop d retries oracle k attempt lastErr delays calls).2.2 ≤ calls + k := by
  intro k
  induction k with
  | zero => intro _ _ _ _; simp [fetchLoop]
  | succ k ih =>
    intro attempt lastErr delays calls
    unfold fetchLoop
    cases oracle attempt with
    | ok body => simp
    | error e =>
      cases e with
      | notFound => simp
      | timeout => simp
      | rateLimited ra =>
        simp only
        by_cases hlt : attempt < retries
        · rw [if_pos hlt]
          calc (fetchLoop d retries oracle k (attempt + 1) _ _ (calls + 1)).2.2
              ≤ (calls + 1) + k := ih _ _ _ _
            _ = calls + (k + 1) := by omega
        · rw [if_neg hlt]; simp
      | server =>
        simp only
        by_cases hlt : attempt < retries
        · rw [if_pos hlt]
          calc (fetchLoop d retries oracle k (attempt + 1) _ _ (calls + 1)).2.2
              ≤ (calls + 1) + k := ih _ _ _ _
            _ = calls + (k + 1) := by omega
        · rw [if_neg hlt]
          calc (fetchLoop d retries oracle k (attempt + 1) _ _ (calls + 1)).2.2
              ≤ (calls + 1) + k := ih _ _ _ _
            _ = calls + (k + 1) := by omega

/-- C6 counterexample: with an attempt budget of 4 and a base delay of 1000,
every attempt rate-limited with no advertised delay, the waits performed are
2000, 4000, 6000 — linear in the attempt number, not a geometric
(exponentially scaled) sequence. -/
theorem c6_counterexample_delays_not_exponential :
    (fetchWithRetry 4 1000 rlOracle).2.1 = [2000, 4000, 6000] ∧
    ¬ ∃ c : Nat, (fetchWithRetry 4 1000 rlOracle).2.1 = [c * 2 ^ 0, c * 2 ^ 1, c * 2 ^ 2] := by
  constructor
  · decide
  · rintro ⟨c, h⟩
    rw [show (fetchWithRetry 4 1000 rlOracle).2.1 = [2000, 4000, 6000] from by decide] at h
    simp at h
    omega

/-- C6 (amended): a rate-limited attempt with no server-advertised delay
waits the default delay scaled **linearly** with the attempt number
(`retryDelay * attempt * 2`) before retrying, and the fetch layer never
consumes more attempts than the configured budget. -/
theorem c6_rate_limit_linear_default_delay :
    (∀ (retries d : Nat) (oracle : Nat → Except AttemptError Str),
      (∀ n, oracle n = .error (.rateLimited none)) → 1 ≤ retries →
      (fetchWithRetry retries d oracle).2.1 =
        (List.range' 1 (retries - 1)).map (fun a => d * a * 2) ∧
      (fetchWithRetry retries d oracle).2.2 = retries) ∧
    (∀ (retries d : Nat) (oracle : Nat → Except AttemptError Str),
      (fetchWithRetry retries d oracle).2.2 ≤ retries) := by
  constructor
  · intro retries d oracle ho hr
    have h := fetchLoop_rateLimited_all d retries oracle ho retries 1 none [] 0
      (by omega) hr
    unfold fetchWithRetry
    rw [h]
    constructor
    · simp
    · simp
  · intro retries d oracle
    have h := fetchLoop_calls_le d retries oracle retries 1 none [] 0
    unfold fetchWithRetry
    omega

/-- Witness for the amended C6 at budget 3, base delay 100. -/
theorem c6_rate_limit_linear_default_delay_witness :
    (fetchWithRetry 3 100 rlOracle).2.1 =
      (List.range' 1 2).map (fun a => 100 * a * 2) ∧
    (fetchWithRetry 3 100 rlOracle).2.2 = 3 ∧
    (fetchWithRetry 3 100 rlOracle).2.2 ≤ 3 := by
  have h := c6_rate_limit_linear_default_delay.1 3 100 rlOracle (fun _ => rfl) (by omega)
  exact ⟨h.1, h.2, c6_rate_limit_linear_default_delay.2 3 100 rlOracle⟩

theorem fetchLoop_server_all (d retries : Nat) (oracle : Nat → Except AttemptError Str)
    (ho : ∀ n, oracle n = .error .server) :
    ∀ (k attempt : Nat) (lastErr : Option AttemptError) (delays : List Nat) (calls : Nat),
      attempt + k = retries + 1 → 1 ≤ k →
      fetchLoop d retries oracle k attempt lastErr delays calls =
        (.error (.aggregate (some .server)),
         delays.reverse ++ (List.range' attempt (retries - attempt)).map (fun a => d * 2 ^ (a - 1)),
         calls + k) := by
  intro k
  induction k with
  | zero => intro _ _ _ _ _ hk; omega
  | succ k ih =>
    intro attempt lastErr delays calls hsum _
    unfold fetchLoop
    rw [ho attempt]
    simp only
    by_cases hlt : attempt < retries
    · rw [if_pos hlt]
      have hk' : 1 ≤ k := by omega
      rw [ih (attempt + 1) _ _ _ (by omega) hk']
      rw [show retries - attempt = (retries - (attempt + 1)) + 1 by omega, List.range'_succ]
      simp [List.append_assoc]
      omega
    · rw [if_neg hlt]
      have h1 : attempt = retries := by omega
      subst h1
      have h0 : k = 0 := by omega
      subst h0
      simp [fetchLoop, Nat.sub_self]

/-- C7: not-found and timeout failures are raised immediately on any attempt
with no further retry and no sleep; any other transient/server error is
retried after a backoff of `retryDelay * 2 ^ (attempt - 1)` while budget
remains; and exhausting the budget on such errors raises the aggregate
error wrapping the last underlying cause, having consumed exactly the
configured number of attempts. -/
theorem c7_retry_classification :
    (∀ (d retries : Nat) (oracle : Nat → Except AttemptError Str)
        (k attempt : Nat) (lastErr : Option AttemptError) (delays : List Nat) (calls : Nat),
      oracle attempt = .error .notFound →
      fetchLoop d retries oracle (k + 1) attempt lastErr delays calls =
        (.error (.raised .notFound), delays.reverse, calls + 1)) ∧
    (∀ (d retries : Nat) (oracle : Nat → Except AttemptError Str)
        (k attempt : Nat) (lastErr : Option AttemptError) (delays : List Nat) (calls : Nat),
      oracle attempt = .error .timeout →
      fetchLoop d retries oracle (k + 1) attempt lastErr delays calls =
        (.error (.raised .timeout), delays.reverse, calls + 1)) ∧
    (∀ (d retries : Nat) (oracle : Nat → Except AttemptError Str)
        (k attempt : Nat) (lastErr : Option AttemptError) (delays : List Nat) (calls : Nat),
      oracle attempt = .error .server → attempt < retries →
      fetchLoop d retries oracle (k + 1) attempt lastErr delays calls =
        fetchLoop d retries oracle k (attempt + 1) (some .server)
          ((d * 2 ^ (attempt - 1)) :: delays) (calls + 1)) ∧
    (∀ (retries d : Nat) (oracle : Nat → Except AttemptError Str),
      (∀ n, oracle n = .error .server) → 1 ≤ retries →
      fetchWithRetry retries d oracle =
        (.error (.aggregate (some .server)),
         (List.range' 1 (retries - 1)).map (fun a => d * 2 ^ (a - 1)),
         retries)) := by
  refine ⟨?_, ?_, ?_, ?_⟩
  · intro d retries oracle k attempt lastErr delays calls h
    unfold fetchLoop
    rw [h]
  · intro d retries oracle k attempt lastErr delays calls h
    unfold fetchLoop
    rw [h]
  · intro d retries oracle k attempt lastErr delays calls h hlt
    conv_lhs => unfold fetchLoop
    rw [h]
    simp only
    rw [if_pos hlt]
  · intro retries d oracle ho hr
    have h := fetchLoop_server_all d retries oracle ho retries 1 none [] 0 (by omega) hr
    unfold fetchWithRetry
    rw [h]
    simp

/-- Witness for C7: a timeout on attempt 1 is raised immediately; a
not-found on attempt 1 likewise; a server error below budget retries with
the doubled backoff; and an all-server run of budget 3 ends in the
aggregate error after delays 100, 200. -/
theorem c7_retry_classification_witness :
    fetchLoop 100 3 (fun _ => .error .notFound) 3 1 none [] 0 =
      (.error (.raised .notFound), [], 1) ∧
    fetchLoop 100 3 (fun _ => .error .timeout) 3 1 none [] 0 =
      (.error (.raised .timeout), [], 1) ∧
    fetchLoop 100 3 (fun _ => .error .server) 3 1 none [] 0 =
      fetchLoop 100 3 (fun _ => .error .server) 2 2 (some .server) [100 * 2 ^ 0] 1 ∧
    fetchWithRetry 3 100 (fun _ => .error .server) =
      (.error (.aggregate (some .server)), [100, 200], 3) := by
  refine ⟨c7_retry_classification.1 100 3 _ 2 1 none [] 0 rfl,
    c7_retry_classification.2.1 100 3 _ 2 1 none [] 0 rfl,
    c7_retry_classification.2.2.1 100 3 _ 2 1 none [] 0 rfl (by omega), ?_⟩
  have h := c7_retry_classification.2.2.2 3 100 (fun _ => .error .server)
    (fun _ => rfl) (by omega)
  rw [h]
  rfl

/-! ## C8: the `required` flag of parseInputBlock -/

theorem RequiredProp_cons (c : Char) (cs : Str) : RequiredProp cs → RequiredProp (c :: cs) := by
  rintro ⟨a, mid, b, heq, hmid, hb⟩
  exact ⟨c :: a, mid, b, by rw [heq]; rfl, hmid, hb⟩

theorem requiredTest_imp (s : Str) : requiredTest s = true → RequiredProp s := by
  induction s with
  | nil => intro h; simp [requiredTest] at h
  | cons c cs ih =>
    intro h
    unfold requiredTest at h
    by_cases hc : c = '.'
    · rw [if_pos hc] at h
      subst hc
      by_cases hp : pfx ("Required".toList) (cs.dropWhile isWsChar) = true
      · rw [if_pos hp] at h
        have hsplit := pfx_eq_append _ _ hp
        cases hd : (cs.dropWhile isWsChar).drop ("Required".toList).length with
        | nil =>
          refine ⟨[], cs.takeWhile isWsChar, [], ?_, all_takeWhile _ _, Or.inl rfl⟩
          rw [hd] at hsplit
          simp only [List.nil_append, List.append_nil]
          conv_lhs => rw [← List.takeWhile_append_dropWhile (p := isWsChar) (l := cs)]
          rw [hsplit]
          simp
        | cons dch rest =>
          have hd8 : (cs.dropWhile isWsChar).drop 8 = dch :: rest := hd
          rw [hd8] at h
          have h' : (if isWordChar dch = true then requiredTest cs else true) = true := h
          by_cases hw : isWordChar dch = true
          · rw [if_pos hw] at h'
            exact RequiredProp_cons _ _ (ih h')
          · refine ⟨[], cs.takeWhile isWsChar, dch :: rest, ?_, all_takeWhile _ _,
              Or.inr ⟨dch, rest, rfl, by simpa using hw⟩⟩
            rw [hd] at hsplit
            simp only [List.nil_append]
            conv_lhs => rw [← List.takeWhile_append_dropWhile (p := isWsChar) (l := cs)]
            rw [hsplit]
            simp
      · rw [if_neg hp] at h
        exact RequiredProp_cons _ _ (ih h)
    · rw [if_neg hc] at h
      exact RequiredProp_cons _ _ (ih h)

theorem RequiredProp_imp (s : Str) : RequiredProp s → requiredTest s = true := by
  rintro ⟨a, mid, b, rfl, hmid, hb⟩
  induction a with
  | nil =>
    simp only [List.nil_append]
    unfold requiredTest
    rw [if_pos rfl]
    have hdw : ((mid ++ ("Required".toList) ++ b).dropWhile isWsChar) =
        ("Required".toList) ++ b := by
      rw [List.append_assoc]
      exact dropWhile_append_of _ _ _ _ hmid (by decide)
    rw [hdw]
    rw [if_pos (pfx_append_self _ _)]
    have hdrop : (("Required".toList) ++ b).drop ("Required".toList).length = b :=
      List.drop_left _ _
    have hdrop8 : (("Required".toList) ++ b).drop 8 = b := hdrop
    rw [hdrop8]
    rcases hb with rfl | ⟨d, b', rfl, hw⟩
    · rfl
    · show (if isWordChar d = true then
          requiredTest (mid ++ ("Required".toList) ++ d :: b') else true) = true
      rw [if_neg (by simp [hw])]
  | cons x a' ih =>
    simp only [List.cons_append]
    unfold requiredTest
    by_cases hx : x = '.'
    · rw [if_pos hx]
      by_cases hp : pfx ("Required".toList)
          ((a' ++ '.' :: (mid ++ ("Required".toList) ++ b)).dropWhile isWsChar) = true
      · rw [if_pos hp]
        cases hd : ((a' ++ '.' :: (mid ++ ("Required".toList) ++ b)).dropWhile isWsChar).drop 8 with
        | nil => rfl
        | cons dch rest =>
          show (if isWordChar dch = true then
            requiredTest (a' ++ '.' :: (mid ++ ("Required".toList) ++ b)) else true) = true
          by_cases hw : isWordChar dch = true
          · rw [if_pos hw]
            exact ih
          · rw [if_neg hw]
      · rw [if_neg hp]
        exact ih
    · rw [if_neg hx]
      exact ih

/-- C8: `parseInputBlock` sets `required = true` exactly when the block
contains the token `Required` preceded (through whitespace) by a sentence
terminator and bounded by a word boundary; in particular a block with
`. Required` right after its type token parses `required = true`, and a
block lacking the token parses `required = false`. -/
theorem c8_required_iff_token :
    (∀ (block : Str) (inp : TaskInput), parseInputBlock block = some inp →
      (inp.required = true ↔ RequiredProp block)) ∧
    parseInputBlock blockC8T = some inpC8T ∧ inpC8T.required = true ∧
    (∃ inp : TaskInput, parseInputBlock blockC8F = some inp ∧ inp.required = false) := by
  refine ⟨?_, by decide, rfl, ⟨_, rfl, rfl⟩⟩
  intro block inp h
  unfold parseInputBlock at h
  cases hfi : findItemName block with
  | none => rw [hfi] at h; cases h
  | some nm =>
    rw [hfi] at h
    simp only [Option.some.injEq] at h
    have hreq : inp.required = requiredTest block := by rw [← h]
    rw [hreq]
    exact ⟨requiredTest_imp block, RequiredProp_imp block⟩

/-- Witness for C8, applying the iff at the concrete `. Required` block. -/
theorem c8_required_iff_token_witness :
    (inpC8T.required = true ↔ RequiredProp blockC8T) ∧ inpC8T.required = true :=
  ⟨c8_required_iff_token.1 blockC8T inpC8T (by decide), rfl⟩

/-- Witness for C3, applying the theorem at the identifiers
`"Bad Name@2"` (rejected, oracle-independent) and `"DotNetCoreCLI@2"`
(accepted and resolved). -/
theorem c3_identifier_validation_witness :
    handleGetTaskReference ("Bad Name@2".toList)
        ⟨.error .notFound, fun _ => .error .notFound, .error .configMissing⟩ = .malformed ∧
    handleGetTaskReference ("DotNetCoreCLI@2".toList)
        ⟨.error .notFound, fun _ => .error .notFound, .error .configMissing⟩ ≠ .malformed ∧
    specTaskIdLang ("DotNetCoreCLI@2".toList) := by
  refine ⟨(c3_identifier_validation.2.1 _ _
      ⟨.ok [], fun _ => .error .timeout, .error .network⟩ (by decide)).1,
    c3_identifier_validation.2.2 _ ("DotNetCoreCLI".toList) ("2".toList) _ (by decide),
    (c3_identifier_validation.1 _).mp (by decide)⟩

/-! ## C4: the syntax region takes the first variant's code block -/

theorem findYamlFrom_append (a s : Str)
    (h : ∀ n, n < a.length → pfx fence7 ((a ++ s).drop n) = false) :
    findYamlFrom (a ++ s) = findYamlFrom s := by
  induction a with
  | nil => simp
  | cons x a' ih =>
    have h0 : pfx fence7 (x :: (a' ++ s)) = false := by
      simpa using h 0 (by simp)
    show findYamlFrom (x :: (a' ++ s)) = findYamlFrom s
    conv_lhs => unfold findYamlFrom
    rw [h0]
    simp only [Bool.false_eq_true, if_false]
    exact ih (fun n hn => by simpa using h (n + 1) (by simpa using Nat.succ_lt_succ hn))

theorem findYamlFrom_at_fence (c0 : Char) (code1' rest : Str)
    (hc0 : isWsChar c0 = false)
    (hno : ∀ n, n < (c0 :: code1').length →
      pfx fence3 (((c0 :: code1') ++ fence3 ++ rest).drop n) = false) :
    findYamlFrom (fence7 ++ '\n' :: ((c0 :: code1') ++ fence3 ++ rest)) = some (c0 :: code1') := by
  have hsplit : splitFirst fence3 ((c0 :: code1') ++ fence3 ++ rest) = some (c0 :: code1', rest) :=
    splitFirst_append fence3 _ _ (by decide) hno
  have hform : fence7 ++ '\n' :: ((c0 :: code1') ++ fence3 ++ rest) =
      '`' :: '`' :: '`' :: 'y' :: 'a' :: 'm' :: 'l' :: '\n' :: ((c0 :: code1') ++ fence3 ++ rest) := rfl
  rw [hform]
  conv_lhs => unfold findYamlFrom
  have hpfx : pfx fence7
      ('`' :: '`' :: '`' :: 'y' :: 'a' :: 'm' :: 'l' :: '\n' :: ((c0 :: code1') ++ fence3 ++ rest)) = true :=
    pfx_append_self fence7 _
  rw [hpfx]
  simp only [if_true]
  have hwnl : isWsChar '\n' = true := rfl
  have hr : (('\n' :: ((c0 :: code1') ++ fence3 ++ rest)).takeWhile isWsChar) = ['\n'] := by
    have hcons : (c0 :: code1') ++ fence3 ++ rest = c0 :: (code1' ++ fence3 ++ rest) := by simp
    rw [hcons]
    simp [List.takeWhile_cons, hwnl, hc0]
  have hdw : (('\n' :: ((c0 :: code1') ++ fence3 ++ rest)).dropWhile isWsChar) =
      (c0 :: code1') ++ fence3 ++ rest := by
    have hcons : (c0 :: code1') ++ fence3 ++ rest = c0 :: (code1' ++ fence3 ++ rest) := by simp
    rw [hcons]
    simp [List.dropWhile_cons, hwnl, hc0]
  have hdrop : ('`' :: '`' :: '`' :: 'y' :: 'a' :: 'm' :: 'l' :: '\n' ::
      ((c0 :: code1') ++ fence3 ++ rest)).drop 7 = '\n' :: ((c0 :: code1') ++ fence3 ++ rest) := rfl
  simp only [hdrop, hr, hdw]
  rw [show (['\n'] : Str).contains '\n' = true from rfl]
  simp only [if_true]
  rw [show afterLastNl ['\n'] = [] from rfl]
  simp only [List.nil_append]
  rw [hsplit]

/-- C4: on every task document whose syntax region contains two (or more)
version-moniker variants with fenced code blocks, `parseSyntax` returns the
code of the first (most current) variant; a later variant's block is never
selected even if present. -/
theorem c4_syntax_takes_first_variant :
    ∀ (pre mid1 mid2 tail post code1' code2 : Str) (c0 : Char),
      isWsChar c0 = false →
      noOccursBefore synOpenL
        (twoVariantSyntaxDoc pre mid1 (c0 :: code1') mid2 code2 tail post) pre.length →
      noOccursBefore synEndL
        (synRegionBody mid1 (c0 :: code1') (synVariantTail mid2 code2 tail) ++ synEndL ++ post)
        (synRegionBody mid1 (c0 :: code1') (synVariantTail mid2 code2 tail)).length →
      noOccursBefore fence7
        (synRegionBody mid1 (c0 :: code1') (synVariantTail mid2 code2 tail)) mid1.length →
      noOccursBefore fence3
        ((c0 :: code1') ++ fence3 ++ synVariantTail mid2 code2 tail) (c0 :: code1').length →
      parseSyntax (twoVariantSyntaxDoc pre mid1 (c0 :: code1') mid2 code2 tail post) =
        some (trimStr (c0 :: code1')) ∧
      (trimStr code2 ≠ trimStr (c0 :: code1') →
        parseSyntax (twoVariantSyntaxDoc pre mid1 (c0 :: code1') mid2 code2 tail post) ≠
          some (trimStr code2)) := by
  intro pre mid1 mid2 tail post code1' code2 c0 hc0 h1 h2 h3 h4
  have hsplit1 : splitFirst synOpenL
      (twoVariantSyntaxDoc pre mid1 (c0 :: code1') mid2 code2 tail post) =
      some (pre, synRegionBody mid1 (c0 :: code1') (synVariantTail mid2 code2 tail) ++ synEndL ++ post) :=
    splitFirst_append synOpenL pre _ (by decide) h1
  have hsplit2 : splitFirst synEndL
      (synRegionBody mid1 (c0 :: code1') (synVariantTail mid2 code2 tail) ++ synEndL ++ post) =
      some (synRegionBody mid1 (c0 :: code1') (synVariantTail mid2 code2 tail), post) :=
    splitFirst_append synEndL _ _ (by decide) h2
  have hsect : extractBetween synOpenL synEndL
      (twoVariantSyntaxDoc pre mid1 (c0 :: code1') mid2 code2 tail post) =
      some (synRegionBody mid1 (c0 :: code1') (synVariantTail mid2 code2 tail)) := by
    unfold extractBetween
    simp only [hsplit1, hsplit2]
  have hyaml : findYamlFrom (synRegionBody mid1 (c0 :: code1') (synVariantTail mid2 code2 tail)) =
      some (c0 :: code1') := by
    unfold synRegionBody
    rw [findYamlFrom_append mid1 _ h3]
    exact findYamlFrom_at_fence c0 code1' (synVariantTail mid2 code2 tail) hc0 h4
  have hps : parseSyntax (twoVariantSyntaxDoc pre mid1 (c0 :: code1') mid2 code2 tail post) =
      some (trimStr (c0 :: code1')) := by
    unfold parseSyntax
    simp only [hsect, hyaml]
  refine ⟨hps, ?_⟩
  intro hne hcontra
  rw [hps] at hcontra
  exact hne (by injection hcontra with h'; exact h'.symm)

/-- Witness for C4 on a concrete two-variant document: the current
variant's block is returned, the older one is not. -/
theorem c4_syntax_takes_first_variant_witness :
    parseSyntax (twoVariantSyntaxDoc ("x\n".toList) (":::moniker a\n".toList)
        ("- task: A@2".toList) ("\n:::moniker b\n".toList) ("- task: A@1".toList)
        ("\n".toList) ("\nz".toList)) = some (trimStr ("- task: A@2".toList)) ∧
    parseSyntax (twoVariantSyntaxDoc ("x\n".toList) (":::moniker a\n".toList)
        ("- task: A@2".toList) ("\n:::moniker b\n".toList) ("- task: A@1".toList)
        ("\n".toList) ("\nz".toList)) ≠ some (trimStr ("- task: A@1".toList)) := by
  have h := c4_syntax_takes_first_variant ("x\n".toList) (":::moniker a\n".toList)
    ("\n:::moniker b\n".toList) ("\n".toList) ("\nz".toList)
    (" task: A@2".toList) ("- task: A@1".toList) '-'
    (by decide) (by decide) (by decide) (by decide) (by decide)
  exact ⟨h.1, h.2 (by decide)⟩
